import Mathlib

/-!
Verification of the RC-frame optimization core against its specification.

The development shallowly embeds the arithmetic of the Python sources
(`phase1/capacity_calculator.py`, `phase1/section_database.py`,
`phase4/section_verifier.py`, `phase4/structure_model.py`,
`phase4/optimizer.py`) over exact rationals (ℚ).  Python floats are
modelled as rationals; dictionaries are modelled as association lists;
exceptions of fallible steps (the external FEM solve) are modelled with
`Option`.
-/

namespace RCFrame

/-! ### Material constants (capacity_calculator.py, GB 50010-2010)
C30 concrete and HRB400 steel. -/

def F_C : ℚ := 143 / 10
def F_T : ℚ := 143 / 100
def ALPHA_1 : ℚ := 1
def BETA_1 : ℚ := 4 / 5
def F_Y : ℚ := 360
def F_Y_PRIME : ℚ := 360
def E_S : ℚ := 200000
def C_COVER : ℚ := 35
def D_STIRRUP : ℚ := 8

/-- Distance from section edge to the rebar centroid:
`a_s = C_COVER + D_STIRRUP + 10` (half of an assumed 20 mm bar). -/
def a_s_const : ℚ := C_COVER + D_STIRRUP + 10

/-- Effective depth `h0 = h - a_s` (source `get_h0`). -/
def get_h0 (h : ℚ) : ℚ := h - a_s_const

/-- Relative limit depth of the compression zone,
`xi_b = BETA_1 / (1 + F_Y / (E_S * 0.0033))` (= 44/85). -/
def xi_b : ℚ := BETA_1 / (1 + F_Y / (E_S * (33 / 10000)))

/-- Nominal flexural capacity of a rectangular section
(source `calculate_beam_Mn`): neutral-axis depth from force
equilibrium, clamped at the balanced depth `xi_b * h0`, then raised to
`2 * a_s'` when compression steel is present; result in kN·m. -/
def calculate_beam_Mn (b h As As_prime : ℚ) : ℚ :=
  let h0 := get_h0 h
  let x0 := (F_Y * As - F_Y_PRIME * As_prime) / (ALPHA_1 * F_C * b)
  let x1 := if xi_b * h0 < x0 then xi_b * h0 else x0
  let x2 := if x1 < 2 * a_s_const ∧ 0 < As_prime then 2 * a_s_const else x1
  (ALPHA_1 * F_C * b * x2 * (h0 - x2 / 2) + F_Y_PRIME * As_prime * (h0 - a_s_const)) / 1000000

/-- Design flexural capacity `phi * Mn` with `phi = 0.9`. -/
def calculate_phi_Mn (b h As As_prime : ℚ) : ℚ :=
  (9 / 10) * calculate_beam_Mn b h As As_prime

/-- Shear capacity of a beam section (source `calculate_beam_Vn`), kN. -/
def calculate_beam_Vn (b h s Asv : ℚ) : ℚ :=
  let h0 := get_h0 h
  ((7 / 10) * F_T * b * h0 + F_Y * Asv * h0 / s) / 1000

/-- Design shear capacity `phi * Vn` with `phi = 0.75`. -/
def calculate_phi_Vn (b h s Asv : ℚ) : ℚ :=
  (3 / 4) * calculate_beam_Vn b h s Asv

/-! ### Section catalog (section_database.py) -/

/-- One catalog entry (source dict `{'b','h','A','I_g','W','cost_per_m'}`). -/
structure Section where
  b : ℕ
  h : ℕ
  A : ℕ
  Ig : ℚ
  W : ℚ
  costPerM : ℚ
  deriving DecidableEq, Repr

/-- Per-meter cost (source `SectionDatabase._calc_cost`): concrete at
500 yuan/m3, steel estimated at a 1.5 percent ratio at 5.5 yuan/kg,
three-face formwork at 50 yuan/m2; the source rounds to two decimals
with Python `round` (ties, which round to even in Python, do not occur
at the two-decimal grid points relevant to the claims). -/
def calcCost (b h : ℚ) : ℚ :=
  let vConcrete := (b / 1000) * (h / 1000) * 1
  let areaSteel := (15 / 1000) * b * h
  let wSteel := areaSteel * 1000 * (785 / 100000000)
  let aForm := (b + 2 * h) / 1000 * 1
  let cost := vConcrete * 500 + wSteel * (11 / 2) + aForm * 50
  ((round (cost * 100) : ℤ) : ℚ) / 100

/-- Build the catalog entry for width `b` and depth `h` (mm). -/
def mkSection (b h : ℕ) : Section :=
  { b := b
    h := h
    A := b * h
    Ig := (b : ℚ) * (h : ℚ) ^ 3 / 12
    W := (b : ℚ) * (h : ℚ) ^ 2 / 6
    costPerM := calcCost (b : ℚ) (h : ℚ) }

/-- The full catalog (source `SectionDatabase._generate_all`): widths
200..500 mm and depths 300..800 mm on a 50 mm step, depth varying
fastest, densely indexed from 0. -/
def sections : List Section :=
  (List.range 7).flatMap fun i =>
    (List.range 11).map fun j => mkSection (200 + 50 * i) (300 + 50 * j)

/-- Catalog lookup by index with modulo wraparound
(source `SectionDatabase.get_by_index`); Lean `%` on ℤ agrees with
Python `%` (result in `[0, size)` for a positive modulus). -/
def get_by_index (i : ℤ) : Section :=
  sections.getD (i % (sections.length : ℤ)).toNat (mkSection 0 0)

theorem sections_length : sections.length = 77 := by decide

theorem sections_getD_valid :
    ∀ k < 77, 200 ≤ (sections.getD k (mkSection 0 0)).b ∧
      (sections.getD k (mkSection 0 0)).b ≤ 500 ∧
      50 ∣ (sections.getD k (mkSection 0 0)).b ∧
      300 ≤ (sections.getD k (mkSection 0 0)).h ∧
      (sections.getD k (mkSection 0 0)).h ≤ 800 ∧
      50 ∣ (sections.getD k (mkSection 0 0)).h := by decide

theorem get_by_index_eq_mod (i : ℤ) :
    get_by_index i = sections.getD (i % 77).toNat (mkSection 0 0) := by
  unfold get_by_index
  rw [sections_length]
  norm_num

/-- C4: for every integer index, including negative ones and ones at or
beyond the catalog size, `get_by_index` returns the entry stored at
`i mod 77` (the catalog size) without failing, and that entry has width
in [200,500] mm and depth in [300,800] mm, both multiples of 50. -/
theorem get_by_index_total_and_valid (i : ℤ) :
    get_by_index i = sections.getD (i % 77).toNat (mkSection 0 0) ∧
    200 ≤ (get_by_index i).b ∧ (get_by_index i).b ≤ 500 ∧
    50 ∣ (get_by_index i).b ∧
    300 ≤ (get_by_index i).h ∧ (get_by_index i).h ≤ 800 ∧
    50 ∣ (get_by_index i).h := by
  have hmod : (i % 77).toNat < 77 := by
    have h1 : 0 ≤ i % 77 := Int.emod_nonneg i (by norm_num)
    have h2 : i % 77 < 77 := Int.emod_lt_of_pos i (by norm_num)
    omega
  refine ⟨get_by_index_eq_mod i, ?_⟩
  rw [get_by_index_eq_mod i]
  exact sections_getD_valid _ hmod

/-- Closed instance of the catalog-totality theorem at a negative index. -/
theorem get_by_index_total_and_valid_witness :
    get_by_index (-5) = sections.getD ((-5 : ℤ) % 77).toNat (mkSection 0 0) ∧
    200 ≤ (get_by_index (-5)).b ∧ (get_by_index (-5)).b ≤ 500 ∧
    50 ∣ (get_by_index (-5)).b ∧
    300 ≤ (get_by_index (-5)).h ∧ (get_by_index (-5)).h ≤ 800 ∧
    50 ∣ (get_by_index (-5)).h :=
  get_by_index_total_and_valid (-5)

/-! ### P-M interaction curve (capacity_calculator.generate_pm_curve)
Moments are taken about the geometric centre `h/2`; axial force is
compression-positive.  `As2` denotes the steel area per face
(`As_total / 2`, symmetric reinforcement). -/

/-- Stress in the compression-face steel at neutral-axis depth `x`
(positive = compression): yield for `x >= 2 a_s'`, otherwise the strain
compatibility value `E_S * 0.0033 * (x - a_s') / x` clamped to
`[-F_Y, F_Y_PRIME]`. -/
def pmSigmaPrime (x : ℚ) : ℚ :=
  if 2 * a_s_const ≤ x then F_Y_PRIME
  else max (-F_Y) (min F_Y_PRIME (E_S * ((33 / 10000) * (x - a_s_const) / x)))

/-- Stress in the tension-face steel at neutral-axis depth `x`
(positive = tension): yield for `x <= xi_b * h0`, otherwise
`E_S * 0.0033 * (h0 - x) / x` clamped to `[-F_Y_PRIME, F_Y]`. -/
def pmSigmaS (h x : ℚ) : ℚ :=
  if x ≤ xi_b * get_h0 h then F_Y
  else max (-F_Y_PRIME) (min F_Y (E_S * ((33 / 10000) * (get_h0 h - x) / x)))

/-- Axial force (N, compression-positive) at neutral-axis depth `x`:
`N = ALPHA_1 F_C b x + sigma' As' - sigma_s As`. -/
def pmN (b h As2 x : ℚ) : ℚ :=
  ALPHA_1 * F_C * b * x + pmSigmaPrime x * As2 - pmSigmaS h x * As2

/-- Moment (N·mm) about the geometric centre `h/2` at depth `x`. -/
def pmM (b h As2 x : ℚ) : ℚ :=
  ALPHA_1 * F_C * b * x * (h / 2 - x / 2) +
    pmSigmaPrime x * As2 * (h / 2 - a_s_const) +
    pmSigmaS h x * As2 * (h / 2 - a_s_const)

/-- One sampled point `(P in kN, |M| in kN·m)`. -/
def pmPoint (b h As2 x : ℚ) : ℚ × ℚ :=
  (pmN b h As2 x / 1000, |pmM b h As2 x| / 1000000)

/-- Sampled neutral-axis depth for step `i` of `n`:
`x = h * (1 - i/n)` clamped to `[1, h]` (source `max(1.0, min(x, h))`). -/
def pmX (h : ℚ) (i n : ℕ) : ℚ :=
  max 1 (min (h * (1 - (i : ℚ) / (n : ℚ))) h)

/-- The P-M interaction curve (source `generate_pm_curve`): `n + 1`
points sampled from pure compression (`x = h`) toward pure bending
(`x` clamped at 1), with symmetric reinforcement `As_total / 2` per
face. -/
def generate_pm_curve (b h AsTotal : ℚ) (n : ℕ) : List (ℚ × ℚ) :=
  (List.range (n + 1)).map fun i => pmPoint b h (AsTotal / 2) (pmX h i n)

theorem xi_b_val : xi_b = 44 / 85 := by
  norm_num [xi_b, BETA_1, F_Y, E_S]

theorem pmSigmaPrime_le (x : ℚ) : pmSigmaPrime x ≤ 360 := by
  unfold pmSigmaPrime F_Y_PRIME
  split_ifs
  · norm_num
  · exact max_le (by norm_num [F_Y]) (le_trans (min_le_left _ _) (by norm_num))

theorem pmSigmaS_le (h x : ℚ) : pmSigmaS h x ≤ 360 := by
  unfold pmSigmaS F_Y
  split_ifs
  · norm_num
  · exact max_le (by norm_num [F_Y_PRIME]) (le_trans (min_le_left _ _) (by norm_num))

theorem pmSigmaPrime_mono {x1 x2 : ℚ} (hx1 : 0 < x1) (h12 : x1 ≤ x2) :
    pmSigmaPrime x1 ≤ pmSigmaPrime x2 := by
  have hx2 : 0 < x2 := lt_of_lt_of_le hx1 h12
  unfold pmSigmaPrime
  split_ifs with ha hb hb
  · exact le_refl _
  · exact absurd (le_trans ha h12) hb
  · exact max_le (by norm_num [F_Y, F_Y_PRIME])
      (le_trans (min_le_left _ _) (by norm_num [F_Y_PRIME]))
  · refine max_le_max (le_refl _) (min_le_min (le_refl _) ?_)
    have key : (33 / 10000 : ℚ) * (x1 - a_s_const) / x1 ≤
        (33 / 10000) * (x2 - a_s_const) / x2 := by
      rw [div_le_div_iff hx1 hx2]
      have hc : (0 : ℚ) < a_s_const := by norm_num [a_s_const, C_COVER, D_STIRRUP]
      nlinarith [mul_le_mul_of_nonneg_left h12 (le_of_lt hc)]
    have hE : (0 : ℚ) ≤ E_S := by norm_num [E_S]
    exact mul_le_mul_of_nonneg_left key hE

theorem pmSigmaS_anti {h x1 x2 : ℚ} (hx1 : 0 < x1) (h12 : x1 ≤ x2)
    (hh0 : 0 ≤ get_h0 h) : pmSigmaS h x2 ≤ pmSigmaS h x1 := by
  have hx2 : 0 < x2 := lt_of_lt_of_le hx1 h12
  unfold pmSigmaS
  split_ifs with ha hb hb
  · exact le_refl _
  · exact absurd (le_trans h12 ha) hb
  · exact max_le (by norm_num [F_Y, F_Y_PRIME]) (min_le_left _ _)
  · refine max_le_max (le_refl _) (min_le_min (le_refl _) ?_)
    have key : (33 / 10000 : ℚ) * (get_h0 h - x2) / x2 ≤
        (33 / 10000) * (get_h0 h - x1) / x1 := by
      rw [div_le_div_iff hx2 hx1]
      nlinarith [mul_le_mul_of_nonneg_left h12 hh0]
    have hE : (0 : ℚ) ≤ E_S := by norm_num [E_S]
    exact mul_le_mul_of_nonneg_left key hE

/-- The sampled axial force is non-decreasing in the neutral-axis
depth, so the pure-compression end dominates the curve. -/
theorem pmN_mono {b h As2 x1 x2 : ℚ} (hb : 0 ≤ b) (hA : 0 ≤ As2)
    (hh0 : 0 ≤ get_h0 h) (hx1 : 0 < x1) (h12 : x1 ≤ x2) :
    pmN b h As2 x1 ≤ pmN b h As2 x2 := by
  unfold pmN
  have h1 : ALPHA_1 * F_C * b * x1 ≤ ALPHA_1 * F_C * b * x2 := by
    have : (0 : ℚ) ≤ ALPHA_1 * F_C * b := by
      have : (0 : ℚ) ≤ ALPHA_1 * F_C := by norm_num [ALPHA_1, F_C]
      exact mul_nonneg this hb
    exact mul_le_mul_of_nonneg_left h12 this
  have h2 : pmSigmaPrime x1 * As2 ≤ pmSigmaPrime x2 * As2 :=
    mul_le_mul_of_nonneg_right (pmSigmaPrime_mono hx1 h12) hA
  have h3 : pmSigmaS h x2 * As2 ≤ pmSigmaS h x1 * As2 :=
    mul_le_mul_of_nonneg_right (pmSigmaS_anti hx1 h12 hh0) hA
  linarith

theorem pmX_ge_one (h : ℚ) (i n : ℕ) : 1 ≤ pmX h i n := le_max_left _ _

theorem pmX_le (h : ℚ) (i n : ℕ) (hh : 1 ≤ h) : pmX h i n ≤ h :=
  max_le hh (min_le_right _ _)

theorem pmX_zero (h : ℚ) (hh : 1 ≤ h) : pmX h 0 50 = h := by
  unfold pmX
  norm_num
  exact hh

theorem pmX_last (h : ℚ) : pmX h 50 50 = 1 := by
  unfold pmX
  norm_num

theorem pmSigmaPrime_yield {h : ℚ} (hh : 106 ≤ h) : pmSigmaPrime h = 360 := by
  unfold pmSigmaPrime
  rw [if_pos (by norm_num [a_s_const, C_COVER, D_STIRRUP]; linarith)]
  norm_num [F_Y_PRIME]

theorem pmSigmaS_top {h : ℚ} (hh : 300 ≤ h) : pmSigmaS h h = -34980 / h := by
  have hpos : (0 : ℚ) < h := by linarith
  unfold pmSigmaS
  rw [if_neg (by rw [xi_b_val]; norm_num [get_h0, a_s_const, C_COVER, D_STIRRUP]; linarith)]
  have hinner : E_S * ((33 / 10000) * (get_h0 h - h) / h) = -34980 / h := by
    norm_num [E_S, get_h0, a_s_const, C_COVER, D_STIRRUP]
    field_simp
    ring
  rw [hinner]
  have h1 : (-34980 : ℚ) / h ≤ 360 := by
    have : (-34980 : ℚ) / h ≤ 0 := div_nonpos_of_nonpos_of_nonneg (by norm_num) (le_of_lt hpos)
    linarith
  have h2 : (-360 : ℚ) ≤ -34980 / h := by
    rw [neg_div, neg_le_neg_iff, div_le_iff hpos]
    linarith
  rw [min_eq_right (by norm_num [F_Y]; exact h1), max_eq_right (by norm_num [F_Y_PRIME]; exact h2)]

theorem pmSigmaPrime_one : pmSigmaPrime 1 = -360 := by
  unfold pmSigmaPrime
  rw [if_neg (by norm_num [a_s_const, C_COVER, D_STIRRUP])]
  norm_num [a_s_const, C_COVER, D_STIRRUP, E_S, F_Y, F_Y_PRIME]

theorem pmSigmaS_one {h : ℚ} (hh : 300 ≤ h) : pmSigmaS h 1 = 360 := by
  unfold pmSigmaS
  rw [if_pos (by rw [xi_b_val]; norm_num [get_h0, a_s_const, C_COVER, D_STIRRUP]; linarith)]
  norm_num [F_Y]

theorem pm_curve_headD (b h As : ℚ) (hh : 1 ≤ h) :
    (generate_pm_curve b h As 50).headD (0, 0) = pmPoint b h (As / 2) h := by
  have : (generate_pm_curve b h As 50).headD (0, 0) = pmPoint b h (As / 2) (pmX h 0 50) := by
    simp [generate_pm_curve, List.range_succ_eq_map]
  rw [this, pmX_zero h hh]

theorem pm_curve_lastD (b h As : ℚ) :
    (generate_pm_curve b h As 50).getLast?.getD (0, 0) = pmPoint b h (As / 2) 1 := by
  unfold generate_pm_curve
  rw [show List.range (50 + 1) = List.range 50 ++ [50] by decide,
    List.map_append, List.map_singleton, List.getLast?_concat, Option.getD_some, pmX_last]

theorem pmPoint_top (b h As2 : ℚ) (hh : 300 ≤ h) (hA : 0 ≤ As2) :
    pmPoint b h As2 h =
      ((ALPHA_1 * F_C * b * h + F_Y * As2 + 34980 / h * As2) / 1000,
        As2 * (h / 2 - a_s_const) * (360 - 34980 / h) / 1000000) := by
  have hpos : (0 : ℚ) < h := by linarith
  have hsp : pmSigmaPrime h = 360 := pmSigmaPrime_yield (by linarith)
  have hss : pmSigmaS h h = -34980 / h := pmSigmaS_top hh
  have hq : (34980 : ℚ) / h ≤ 360 := by
    rw [div_le_iff hpos]; linarith
  unfold pmPoint pmN pmM
  rw [hsp, hss]
  have hM : ALPHA_1 * F_C * b * h * (h / 2 - h / 2) + 360 * As2 * (h / 2 - a_s_const) +
      -34980 / h * As2 * (h / 2 - a_s_const) =
      As2 * (h / 2 - a_s_const) * (360 - 34980 / h) := by
    ring
  rw [hM, abs_of_nonneg]
  · simp only [Prod.mk.injEq]
    refine ⟨by norm_num [F_Y]; ring, by trivial⟩
  · have h1 : (0 : ℚ) ≤ h / 2 - a_s_const := by
      norm_num [a_s_const, C_COVER, D_STIRRUP]; linarith
    have h2 : (0 : ℚ) ≤ 360 - 34980 / h := by linarith
    exact mul_nonneg (mul_nonneg hA h1) h2

theorem pmPoint_one (b h As2 : ℚ) (hb : 0 ≤ b) (hh : 300 ≤ h) :
    pmPoint b h As2 1 =
      ((ALPHA_1 * F_C * b - F_Y * (2 * As2)) / 1000,
        ALPHA_1 * F_C * b * (h - 1) / 2 / 1000000) := by
  have hsp : pmSigmaPrime 1 = -360 := pmSigmaPrime_one
  have hss : pmSigmaS h 1 = 360 := pmSigmaS_one hh
  unfold pmPoint pmN pmM
  rw [hsp, hss]
  have hM : ALPHA_1 * F_C * b * 1 * (h / 2 - 1 / 2) + -360 * As2 * (h / 2 - a_s_const) +
      360 * As2 * (h / 2 - a_s_const) = ALPHA_1 * F_C * b * (h - 1) / 2 := by
    ring
  rw [hM, abs_of_nonneg]
  · simp only [Prod.mk.injEq]
    refine ⟨by norm_num [F_Y]; ring, by trivial⟩
  · have : (0 : ℚ) ≤ ALPHA_1 * F_C * b := by
      have : (0 : ℚ) ≤ ALPHA_1 * F_C := by norm_num [ALPHA_1, F_C]
      exact mul_nonneg this hb
    have : (0 : ℚ) ≤ ALPHA_1 * F_C * b * (h - 1) := mul_nonneg this (by linarith)
    linarith

/-- C2 (amended): for catalog widths and depths and positive total
reinforcement, the first point of the 50-step P-M curve carries the
maximum axial force of the whole curve and equals
`(F_C b h + F_Y As/2 + (34980/h) As/2)/1000` exactly (the code uses
`ALPHA_1 = 1.0` on the gross area, not `0.85 F_C (bh - As)`), with
moment `(As/2)(h/2 - a_s)(360 - 34980/h)/10^6`; the last point has
axial force exactly `(F_C b - F_Y As)/1000` — within `F_C b/1000` kN of
pure tension `-F_Y As/1000` — and a small but nonzero moment
`F_C b (h-1)/2/10^6`. -/
theorem pm_curve_extremes_exact (b h As : ℚ)
    (hb : 200 ≤ b) (hb2 : b ≤ 500) (hh : 300 ≤ h) (hh2 : h ≤ 800) (hAs : 0 < As) :
    (∀ pm ∈ generate_pm_curve b h As 50,
        pm.1 ≤ ((generate_pm_curve b h As 50).headD (0, 0)).1) ∧
    (generate_pm_curve b h As 50).headD (0, 0) =
      ((ALPHA_1 * F_C * b * h + F_Y * (As / 2) + 34980 / h * (As / 2)) / 1000,
        As / 2 * (h / 2 - a_s_const) * (360 - 34980 / h) / 1000000) ∧
    (generate_pm_curve b h As 50).getLast?.getD (0, 0) =
      ((ALPHA_1 * F_C * b - F_Y * As) / 1000,
        ALPHA_1 * F_C * b * (h - 1) / 2 / 1000000) ∧
    |((generate_pm_curve b h As 50).getLast?.getD (0, 0)).1 - -(F_Y * As) / 1000| ≤
      ALPHA_1 * F_C * b / 1000 := by
  have hh1 : (1 : ℚ) ≤ h := by linarith
  have hb0 : (0 : ℚ) ≤ b := by linarith
  have hA2 : (0 : ℚ) ≤ As / 2 := by linarith
  have hhead := pm_curve_headD b h As hh1
  have hlast := pm_curve_lastD b h As
  have htop := pmPoint_top b h (As / 2) hh hA2
  have hone := pmPoint_one b h (As / 2) hb0 hh
  refine ⟨?_, ?_, ?_, ?_⟩
  · intro pm hpm
    rw [hhead]
    obtain ⟨i, _, rfl⟩ := List.mem_map.mp hpm
    show pmN b h (As / 2) (pmX h i 50) / 1000 ≤ pmN b h (As / 2) h / 1000
    have hmono : pmN b h (As / 2) (pmX h i 50) ≤ pmN b h (As / 2) h := by
      refine pmN_mono hb0 hA2 ?_ ?_ (pmX_le h i 50 hh1)
      · norm_num [get_h0, a_s_const, C_COVER, D_STIRRUP]; linarith
      · exact lt_of_lt_of_le (by norm_num) (pmX_ge_one h i 50)
    linarith
  · rw [hhead, htop]
  · rw [hlast, hone]
    have h2 : ALPHA_1 * F_C * b - F_Y * (2 * (As / 2)) = ALPHA_1 * F_C * b - F_Y * As := by
      ring
    rw [h2]
  · rw [hlast, hone]
    have : ALPHA_1 * F_C * b - F_Y * (2 * (As / 2)) = ALPHA_1 * F_C * b - F_Y * As := by
      ring
    rw [this]
    have heq : (ALPHA_1 * F_C * b - F_Y * As) / 1000 - -(F_Y * As) / 1000 =
        ALPHA_1 * F_C * b / 1000 := by ring
    rw [heq, abs_of_nonneg]
    have : (0 : ℚ) ≤ ALPHA_1 * F_C * b := by
      have : (0 : ℚ) ≤ ALPHA_1 * F_C := by norm_num [ALPHA_1, F_C]
      exact mul_nonneg this hb0
    linarith

/-- Closed instance of the amended P-M extreme-point theorem at the
column section 400 x 400 with 4 phi 22 reinforcement. -/
theorem pm_curve_extremes_exact_witness :
    (∀ pm ∈ generate_pm_curve 400 400 1520 50,
        pm.1 ≤ ((generate_pm_curve 400 400 1520 50).headD (0, 0)).1) ∧
    (generate_pm_curve 400 400 1520 50).headD (0, 0) =
      ((ALPHA_1 * F_C * 400 * 400 + F_Y * (1520 / 2) + 34980 / 400 * (1520 / 2)) / 1000,
        1520 / 2 * (400 / 2 - a_s_const) * (360 - 34980 / 400) / 1000000) ∧
    (generate_pm_curve 400 400 1520 50).getLast?.getD (0, 0) =
      ((ALPHA_1 * F_C * 400 - F_Y * 1520) / 1000,
        ALPHA_1 * F_C * 400 * (400 - 1) / 2 / 1000000) ∧
    |((generate_pm_curve 400 400 1520 50).getLast?.getD (0, 0)).1 - -(F_Y * 1520) / 1000| ≤
      ALPHA_1 * F_C * 400 / 1000 :=
  pm_curve_extremes_exact 400 400 1520 (by norm_num) (by norm_num) (by norm_num)
    (by norm_num) (by norm_num)

/-- Counterexample to C2 as stated: the spec says the last point of the
P-M curve has zero moment, but at the 400 x 400 section with
`As_total = 1520` the sampled pure-tension end has moment
`F_C * 400 * 399 / 2 / 10^6 = 1.14114` kN·m, not zero. -/
theorem pm_curve_last_moment_nonzero :
    ((generate_pm_curve 400 400 1520 50).getLast?.getD (0, 0)).2 ≠ 0 := by
  rw [pm_curve_lastD, pmPoint_one 400 400 (1520 / 2) (by norm_num) (by norm_num)]
  norm_num [ALPHA_1, F_C]

/-! ### P-M containment check (capacity_calculator.check_pm_capacity)
The source scans adjacent curve points for the first segment whose
axial range brackets the demand, interpolates the moment capacity
there, and allows a 5 percent margin; if no segment brackets the
demand it falls back to a range test on the sampled axial forces. -/

/-- A segment brackets the demand axial force (source
`min(P1, P2) <= P_u <= max(P1, P2)`). -/
def isBracket (Pu : ℚ) (p q : ℚ × ℚ) : Prop :=
  min p.1 q.1 ≤ Pu ∧ Pu ≤ max p.1 q.1

instance (Pu : ℚ) (p q : ℚ × ℚ) : Decidable (isBracket Pu p q) := by
  unfold isBracket; infer_instance

/-- Interpolated moment capacity on one segment (source: near-duplicate
axial values fall back to `max(M1, M2)`). -/
def interpCap (Pu : ℚ) (p q : ℚ × ℚ) : ℚ :=
  if |q.1 - p.1| < 1 / 1000000 then max p.2 q.2
  else p.2 + (Pu - p.1) / (q.1 - p.1) * (q.2 - p.2)

/-- First bracketing segment found by the linear scan over adjacent
curve points. -/
def firstBracket (Pu : ℚ) : List (ℚ × ℚ) → Option ((ℚ × ℚ) × (ℚ × ℚ))
  | p :: q :: rest =>
    if isBracket Pu p q then some (p, q) else firstBracket Pu (q :: rest)
  | _ => none

/-- Minimum sampled axial force (Python `min(p[0] for p in curve)`;
defined as 0 on the empty list, which the source would reject). -/
def pMinQ : List (ℚ × ℚ) → ℚ
  | [] => 0
  | [p] => p.1
  | p :: q :: rest => min p.1 (pMinQ (q :: rest))

/-- Maximum sampled axial force. -/
def pMaxQ : List (ℚ × ℚ) → ℚ
  | [] => 0
  | [p] => p.1
  | p :: q :: rest => max p.1 (pMaxQ (q :: rest))

/-- Containment check (source `check_pm_capacity`): first bracketing
segment decides via the interpolated capacity with a 5 percent
tolerance, otherwise the demand is compared with the sampled axial
range. -/
def check_pm_capacity (Pu Mu : ℚ) (curve : List (ℚ × ℚ)) : Bool :=
  match firstBracket Pu curve with
  | some (p, q) => decide (|Mu| ≤ |interpCap Pu p q| * (21 / 20))
  | none => decide (pMinQ curve ≤ Pu ∧ Pu ≤ pMaxQ curve)

theorem pMinQ_cons_le_head (p : ℚ × ℚ) (l : List (ℚ × ℚ)) :
    pMinQ (p :: l) ≤ p.1 := by
  cases l with
  | nil => exact le_refl _
  | cons q rest => exact min_le_left _ _

theorem head_le_pMaxQ (p : ℚ × ℚ) (l : List (ℚ × ℚ)) :
    p.1 ≤ pMaxQ (p :: l) := by
  cases l with
  | nil => exact le_refl _
  | cons q rest => exact le_max_left _ _

theorem pMinQ_le_of_mem : ∀ (c : List (ℚ × ℚ)), ∀ pm ∈ c, pMinQ c ≤ pm.1 := by
  intro c
  induction c with
  | nil => intro pm hpm; cases hpm
  | cons p rest ih =>
    intro pm hpm
    cases rest with
    | nil =>
      rcases List.mem_singleton.mp hpm with rfl
      exact le_refl _
    | cons q rest2 =>
      rcases List.mem_cons.mp hpm with rfl | hmem
      · exact min_le_left _ _
      · exact le_trans (min_le_right _ _) (ih pm hmem)

theorem le_pMaxQ_of_mem : ∀ (c : List (ℚ × ℚ)), ∀ pm ∈ c, pm.1 ≤ pMaxQ c := by
  intro c
  induction c with
  | nil => intro pm hpm; cases hpm
  | cons p rest ih =>
    intro pm hpm
    cases rest with
    | nil =>
      rcases List.mem_singleton.mp hpm with rfl
      exact le_refl _
    | cons q rest2 =>
      rcases List.mem_cons.mp hpm with rfl | hmem
      · exact le_max_left _ _
      · exact le_trans (ih pm hmem) (le_max_right _ _)

theorem firstBracket_none_of_forall_lt {Pu : ℚ} :
    ∀ {c : List (ℚ × ℚ)}, (∀ pm ∈ c, Pu < pm.1) → firstBracket Pu c = none := by
  intro c
  induction c with
  | nil => intro _; rfl
  | cons p rest ih =>
    intro hall
    cases rest with
    | nil => rfl
    | cons q rest2 =>
      have hp : Pu < p.1 := hall p (List.mem_cons_self _ _)
      have hq : Pu < q.1 := hall q (List.mem_cons.mpr (Or.inr (List.mem_cons_self _ _)))
      have hnb : ¬isBracket Pu p q := by
        intro hbr
        exact absurd hbr.1 (not_le.mpr (lt_min hp hq))
      show (if isBracket Pu p q then some (p, q) else firstBracket Pu (q :: rest2)) = none
      rw [if_neg hnb]
      exact ih fun pm hpm => hall pm (List.mem_cons.mpr (Or.inr hpm))

theorem firstBracket_none_of_forall_gt {Pu : ℚ} :
    ∀ {c : List (ℚ × ℚ)}, (∀ pm ∈ c, pm.1 < Pu) → firstBracket Pu c = none := by
  intro c
  induction c with
  | nil => intro _; rfl
  | cons p rest ih =>
    intro hall
    cases rest with
    | nil => rfl
    | cons q rest2 =>
      have hp : p.1 < Pu := hall p (List.mem_cons_self _ _)
      have hq : q.1 < Pu := hall q (List.mem_cons.mpr (Or.inr (List.mem_cons_self _ _)))
      have hnb : ¬isBracket Pu p q := by
        intro hbr
        exact absurd hbr.2 (not_le.mpr (max_lt hp hq))
      show (if isBracket Pu p q then some (p, q) else firstBracket Pu (q :: rest2)) = none
      rw [if_neg hnb]
      exact ih fun pm hpm => hall pm (List.mem_cons.mpr (Or.inr hpm))

/-- Intermediate-value property of the polyline scan: a demand inside
the sampled axial range is bracketed by some adjacent segment. -/
theorem firstBracket_isSome {Pu : ℚ} :
    ∀ {c : List (ℚ × ℚ)}, 2 ≤ c.length → pMinQ c ≤ Pu → Pu ≤ pMaxQ c →
      (firstBracket Pu c).isSome := by
  intro c
  induction c with
  | nil => intro hlen; simp at hlen
  | cons p rest ih =>
    intro hlen hmin hmax
    cases rest with
    | nil => simp at hlen
    | cons q rest2 =>
      show (if isBracket Pu p q then some (p, q) else firstBracket Pu (q :: rest2)).isSome
      by_cases hbr : isBracket Pu p q
      · rw [if_pos hbr]; rfl
      · rw [if_neg hbr]
        have hnot := hbr
        unfold isBracket at hnot
        push_neg at hnot
        cases rest2 with
        | nil =>
          exfalso
          have hmin2 : min p.1 q.1 ≤ Pu := hmin
          have hmax2 : Pu ≤ max p.1 q.1 := hmax
          exact hbr ⟨hmin2, hmax2⟩
        | cons r rest3 =>
          rcases lt_or_le Pu (min p.1 q.1) with hlt | hge
          · have hq1 : Pu < q.1 := lt_of_lt_of_le hlt (min_le_right _ _)
            have hp1 : Pu < p.1 := lt_of_lt_of_le hlt (min_le_left _ _)
            refine ih (by simp) ?_ ?_
            · have : min p.1 (pMinQ (q :: r :: rest3)) ≤ Pu := hmin
              rcases min_le_iff.mp this with h | h
              · exact absurd h (not_le.mpr hp1)
              · exact h
            · exact le_trans (le_of_lt hq1) (head_le_pMaxQ q _)
          · have hgt : max p.1 q.1 < Pu := hnot hge
            have hp1 : p.1 < Pu := lt_of_le_of_lt (le_max_left _ _) hgt
            have hq1 : q.1 < Pu := lt_of_le_of_lt (le_max_right _ _) hgt
            refine ih (by simp) ?_ ?_
            · exact le_trans (pMinQ_cons_le_head q _) (le_of_lt hq1)
            · have : Pu ≤ max p.1 (pMaxQ (q :: r :: rest3)) := hmax
              rcases le_max_iff.mp this with h | h
              · exact absurd h (not_le.mpr hp1)
              · exact h

/-- C3: on a sampled curve (at least two points), a demand axial force
outside the sampled range makes `check_pm_capacity` return unsafe
(false) rather than fail, and a demand inside the range is decided by
`|M| <= 1.05 x` the capacity interpolated on the first bracketing
segment found by the linear scan. -/
theorem check_pm_capacity_policy (Pu Mu : ℚ) (curve : List (ℚ × ℚ))
    (hlen : 2 ≤ curve.length) :
    ((Pu < pMinQ curve ∨ pMaxQ curve < Pu) → check_pm_capacity Pu Mu curve = false) ∧
    (pMinQ curve ≤ Pu → Pu ≤ pMaxQ curve →
      ∃ p q, firstBracket Pu curve = some (p, q) ∧
        (check_pm_capacity Pu Mu curve = true ↔ |Mu| ≤ |interpCap Pu p q| * (21 / 20))) := by
  constructor
  · intro hout
    have hnone : firstBracket Pu curve = none := by
      rcases hout with hlt | hgt
      · exact firstBracket_none_of_forall_lt fun pm hpm =>
          lt_of_lt_of_le hlt (pMinQ_le_of_mem curve pm hpm)
      · exact firstBracket_none_of_forall_gt fun pm hpm =>
          lt_of_le_of_lt (le_pMaxQ_of_mem curve pm hpm) hgt
    unfold check_pm_capacity
    rw [hnone]
    rcases hout with hlt | hgt
    · simp [not_le.mpr hlt]
    · simp [not_le.mpr hgt]
  · intro h1 h2
    have hsome := firstBracket_isSome hlen h1 h2
    obtain ⟨⟨p, q⟩, hfb⟩ := Option.isSome_iff_exists.mp hsome
    refine ⟨p, q, hfb, ?_⟩
    unfold check_pm_capacity
    rw [hfb]
    simp

/-- Closed instance of the containment-policy theorem on a two-point
curve with the demand inside the sampled range. -/
theorem check_pm_capacity_policy_witness :
    2 ≤ ([((2 : ℚ), (1 : ℚ)), (0, 3)] : List (ℚ × ℚ)).length ∧
    (((1 : ℚ) < pMinQ [((2 : ℚ), (1 : ℚ)), (0, 3)] ∨
        pMaxQ [((2 : ℚ), (1 : ℚ)), (0, 3)] < 1) →
      check_pm_capacity 1 (3 / 2) [((2 : ℚ), (1 : ℚ)), (0, 3)] = false) ∧
    (pMinQ [((2 : ℚ), (1 : ℚ)), (0, 3)] ≤ 1 → (1 : ℚ) ≤ pMaxQ [((2 : ℚ), (1 : ℚ)), (0, 3)] →
      ∃ p q, firstBracket 1 [((2 : ℚ), (1 : ℚ)), (0, 3)] = some (p, q) ∧
        (check_pm_capacity 1 (3 / 2) [((2 : ℚ), (1 : ℚ)), (0, 3)] = true ↔
          |(3 / 2 : ℚ)| ≤ |interpCap 1 p q| * (21 / 20))) :=
  ⟨by decide, check_pm_capacity_policy 1 (3 / 2) [((2 : ℚ), (1 : ℚ)), (0, 3)] (by decide)⟩

/-! ### Grid, topology groups and decoded cost (data_models.py,
structure_model.py, optimizer.py).  Member ids follow the source:
beams are 1..numBeams, columns numBeams+1..numBeams+numColumns, and
`_assign_groups` decodes a column id story-major as in the source. -/

structure GridInput where
  xSpans : List ℚ
  zHeights : List ℚ
  qDead : ℚ
  qLive : ℚ
  deriving DecidableEq, Repr

def GridInput.numSpans (g : GridInput) : ℕ := g.xSpans.length

def GridInput.numStories (g : GridInput) : ℕ := g.zHeights.length

def GridInput.numBeams (g : GridInput) : ℕ := g.numSpans * g.numStories

def GridInput.numColumns (g : GridInput) : ℕ := (g.numSpans + 1) * g.numStories

def beamIds (g : GridInput) : List ℕ := (List.range g.numBeams).map (· + 1)

def columnIds (g : GridInput) : List ℕ :=
  (List.range g.numColumns).map (· + g.numBeams + 1)

/-- Story of a beam id (source `(beam_id - 1) // num_spans + 1`). -/
def beamStory (g : GridInput) (id : ℕ) : ℕ := (id - 1) / g.numSpans + 1

/-- Story decoded from a column id
(source `col_idx // n_cols + 1` with `col_idx = col_id - num_beams - 1`). -/
def colStory (g : GridInput) (id : ℕ) : ℕ :=
  (id - g.numBeams - 1) / (g.numSpans + 1) + 1

/-- Column-line position decoded from a column id
(source `col_idx % n_cols`). -/
def colLine (g : GridInput) (id : ℕ) : ℕ :=
  (id - g.numBeams - 1) % (g.numSpans + 1)

def beamGroupStandard (g : GridInput) : List ℕ :=
  (beamIds g).filter fun id => !(beamStory g id == g.numStories)

def beamGroupRoof (g : GridInput) : List ℕ :=
  (beamIds g).filter fun id => beamStory g id == g.numStories

def colGroupBottom (g : GridInput) : List ℕ :=
  (columnIds g).filter fun id => colStory g id == 1

def colGroupTop (g : GridInput) : List ℕ :=
  (columnIds g).filter fun id =>
    !(colStory g id == 1) && (colStory g id == g.numStories)

def colGroupStdCorner (g : GridInput) : List ℕ :=
  (columnIds g).filter fun id =>
    !(colStory g id == 1) && !(colStory g id == g.numStories) &&
      (colLine g id == 0 || colLine g id == g.numSpans)

def colGroupStdInterior (g : GridInput) : List ℕ :=
  (columnIds g).filter fun id =>
    !(colStory g id == 1) && !(colStory g id == g.numStories) &&
      !(colLine g id == 0 || colLine g id == g.numSpans)

/-- Mean of a list (numpy mean; 0 on the empty list in this model). -/
def meanQ (l : List ℚ) : ℚ := l.sum / (l.length : ℚ)

/-- Decoded catalog cost of a 6-gene genotype (source
`FrameOptimizer.calculate_cost`): per-meter unit cost of each group's
section times the group's member count times the mean member length. -/
def calculate_cost (g : GridInput) (genes : List ℤ) : ℚ :=
  let stdBeam := get_by_index (genes.getD 0 0)
  let roofBeam := get_by_index (genes.getD 1 0)
  let bottomCol := get_by_index (genes.getD 2 0)
  let stdCornerCol := get_by_index (genes.getD 3 0)
  let stdInteriorCol := get_by_index (genes.getD 4 0)
  let topCol := get_by_index (genes.getD 5 0)
  let avgBeamLen := meanQ g.xSpans / 1000
  let avgColLen := meanQ g.zHeights / 1000
  stdBeam.costPerM * avgBeamLen * ((beamGroupStandard g).length : ℚ) +
    roofBeam.costPerM * avgBeamLen * ((beamGroupRoof g).length : ℚ) +
    bottomCol.costPerM * avgColLen * ((colGroupBottom g).length : ℚ) +
    stdCornerCol.costPerM * avgColLen * ((colGroupStdCorner g).length : ℚ) +
    stdInteriorCol.costPerM * avgColLen * ((colGroupStdInterior g).length : ℚ) +
    topCol.costPerM * avgColLen * ((colGroupTop g).length : ℚ)

/-- Genotype decode for beams (source `set_sections_by_groups`):
standard beams take gene 0, roof beams gene 1. -/
def decodeBeamSections (g : GridInput) (genes : List ℤ) : List (ℕ × ℤ) :=
  (beamGroupStandard g).map (fun id => (id, genes.getD 0 0)) ++
    (beamGroupRoof g).map (fun id => (id, genes.getD 1 0))

/-- Genotype decode for columns: bottom gene 2, standard corner gene 3,
standard interior gene 4, top gene 5. -/
def decodeColumnSections (g : GridInput) (genes : List ℤ) : List (ℕ × ℤ) :=
  (colGroupBottom g).map (fun id => (id, genes.getD 2 0)) ++
    (colGroupStdCorner g).map (fun id => (id, genes.getD 3 0)) ++
    (colGroupStdInterior g).map (fun id => (id, genes.getD 4 0)) ++
    (colGroupTop g).map (fun id => (id, genes.getD 5 0))

/-! ### Element forces and the section verifier (data_models.py,
section_verifier.py). -/

inductive ElementType where
  | beam
  | column
  deriving DecidableEq, Repr

structure ElementForces where
  etype : ElementType
  length : ℚ
  axialMax : ℚ
  axialMin : ℚ
  shearMax : ℚ
  shearMin : ℚ
  momentMax : ℚ
  momentMin : ℚ
  deriving DecidableEq, Repr

def M_design (f : ElementForces) : ℚ := max |f.momentMax| |f.momentMin|

def V_design (f : ElementForces) : ℚ := max |f.shearMax| |f.shearMin|

def N_design (f : ElementForces) : ℚ := max |f.axialMax| |f.axialMin|

def DEFAULT_BEAM_AS : ℚ := 942

def DEFAULT_COL_AS : ℚ := 1520

/-- Beam capacity check (source `check_beam_capacity`): demand/capacity
ratio against the design capacities, penalty `max(0, D/C - 1)` per
action; a non-positive capacity scores the sentinel ratio 999. -/
def check_beam_capacity (secIdx : ℤ) (mu vu As : ℚ) : ℚ × ℚ :=
  let sec := get_by_index secIdx
  let phiMn := calculate_phi_Mn (sec.b : ℚ) (sec.h : ℚ) As 0
  let phiVn := calculate_phi_Vn (sec.b : ℚ) (sec.h : ℚ) 150 (201 / 2)
  let dcM := if 0 < phiMn then |mu| / phiMn else 999
  let dcV := if 0 < phiVn then |vu| / phiVn else 999
  (max 0 (dcM - 1), max 0 (dcV - 1))

/-- Cached P-M curve for a catalog index (source `get_pm_curve`,
`precompute_pm_curves`): always generated with the default column
reinforcement and 50 steps. -/
def get_pm_curve (secIdx : ℤ) : List (ℚ × ℚ) :=
  let sec := get_by_index secIdx
  generate_pm_curve (sec.b : ℚ) (sec.h : ℚ) DEFAULT_COL_AS 50

/-- Largest absolute sampled moment (fallback of
`_get_pm_capacity_at_axial` when no segment brackets the axial force). -/
def pmCapMax (curve : List (ℚ × ℚ)) : ℚ :=
  match curve with
  | [] => 0
  | p :: rest => (rest.map fun pm => |pm.2|).foldl max |p.2|

/-- Moment capacity at a given axial force (source
`_get_pm_capacity_at_axial`): absolute interpolated value on the first
bracketing segment, `max(|M1|, |M2|)` for a near-duplicate segment,
largest sampled |M| when out of range. -/
def getPmCapacityAtAxial (curve : List (ℚ × ℚ)) (Pu : ℚ) : ℚ :=
  match firstBracket Pu curve with
  | some (p, q) =>
    if |q.1 - p.1| < 1 / 1000000 then max |p.2| |q.2|
    else |p.2 + (Pu - p.1) / (q.1 - p.1) * (q.2 - p.2)|
  | none => pmCapMax curve

/-- Simplified column check (source `_check_column_simplified`), used
only when no P-M curve is available. -/
def check_column_simplified (secIdx : ℤ) (pu mu : ℚ) : ℚ :=
  let sec := get_by_index secIdx
  let phiMn := calculate_phi_Mn (sec.b : ℚ) (sec.h : ℚ) DEFAULT_COL_AS 0
  let phiPn := (65 / 100) * (85 / 100) * (143 / 10) * (sec.A : ℚ) / 1000
  if 0 < phiPn ∧ 0 < phiMn then
    if |pu| / phiPn + |mu| / phiMn ≤ 1 then 0
    else |pu| / phiPn + |mu| / phiMn - 1
  else 1 / 2

/-- Column capacity check against the P-M envelope (source
`check_column_capacity`): zero when safe, otherwise twice the excess
moment ratio at the demand axial force (or 1 when no positive capacity
is found). -/
def check_column_capacity (secIdx : ℤ) (pu mu : ℚ) : ℚ :=
  let curve := get_pm_curve secIdx
  if curve.isEmpty then check_column_simplified secIdx pu mu
  else if check_pm_capacity |pu| |mu| curve then 0
  else
    let mcap := getPmCapacityAtAxial curve |pu|
    if 0 < mcap then max 0 (|mu| / mcap - 1) * 2 else 1

/-- Topology constraints (source `check_topology_constraints`): bottom
column area at least 0.8 of the standard beam area, top column area at
most the bottom column area; weighted penalty terms.  The grid argument
is unused by the source as well. -/
def check_topology_constraints (genes : List ℤ) (_grid : GridInput) : ℚ :=
  if genes.length < 6 then 0
  else
    let beamSec := get_by_index (genes.getD 0 0)
    let bottomColSec := get_by_index (genes.getD 2 0)
    let topColSec := get_by_index (genes.getD 5 0)
    let ratio := (bottomColSec.A : ℚ) / (beamSec.A : ℚ)
    (if ratio < 4 / 5 then (4 / 5 - ratio) * 2 else 0) +
      (if (bottomColSec.A : ℚ) < (topColSec.A : ℚ) then
        ((topColSec.A : ℚ) / (bottomColSec.A : ℚ) - 1) * (3 / 2)
      else 0)

/-- Penalty scored for one member inside `verify_all_elements`: a beam
missing from the assignment map defaults to catalog index 30, a column
to index 40; columns are scored at `|axial_min|` (largest compression). -/
def element_penalty (bs cs : List (ℕ × ℤ)) (ef : ℕ × ElementForces) : ℚ :=
  match ef.2.etype with
  | ElementType.beam =>
    let secIdx := (bs.lookup ef.1).getD 30
    let pMV := check_beam_capacity secIdx (M_design ef.2) (V_design ef.2) DEFAULT_BEAM_AS
    pMV.1 + pMV.2
  | ElementType.column =>
    let secIdx := (cs.lookup ef.1).getD 40
    check_column_capacity secIdx |ef.2.axialMin| (M_design ef.2)

/-- Verify all members (source `verify_all_elements`): total additive
penalty and the per-member penalty record. -/
def verify_all_elements (forces : List (ℕ × ElementForces))
    (bs cs : List (ℕ × ℤ)) : ℚ × List (ℕ × ℚ) :=
  ((forces.map (element_penalty bs cs)).sum,
    forces.map fun ef => (ef.1, element_penalty bs cs ef))

/-! ### Fitness function and adaptive penalty (optimizer.py).
The structural analysis delegates to the external FEM oracle; a failed
evaluation (any exception inside the `try` block, e.g. a singular
stiffness system or a short genotype) is modelled as `none`. -/

def MIN_FITNESS : ℚ := 1 / 1000000000000

/-- Fitness of a genotype (source `FrameOptimizer.fitness_func`):
`1 / (cost * (1 + penalty_coeff * total_violation) ** 2.0 + 1e-9)` on a
successful analysis, the minimal fitness `1e-12` on any failure. -/
def fitness_func (pc : ℚ) (g : GridInput) (genes : List ℤ)
    (analysis : Option (List (ℕ × ElementForces))) : ℚ :=
  if genes.length < 6 then MIN_FITNESS
  else
    match analysis with
    | none => MIN_FITNESS
    | some forces =>
      let totalPenalty :=
        (verify_all_elements forces (decodeBeamSections g genes)
          (decodeColumnSections g genes)).1 +
        check_topology_constraints genes g
      let cost := calculate_cost g genes
      1 / (cost * (1 + pc * totalPenalty) ^ 2 + 1 / 1000000000)

/-- Cost field of the returned result (source `FrameOptimizer.run`,
`best_cost = 1.0 / solution_fitness`). -/
def run_best_cost (pc : ℚ) (g : GridInput) (genes : List ℤ)
    (analysis : Option (List (ℕ × ElementForces))) : ℚ :=
  1 / fitness_func pc g genes analysis

/-- Adaptive penalty-coefficient update of `on_generation`: every 3rd
completed generation, scale by 0.9 or 1.1 depending on the feasible
ratio, then clip to [0.5, 3] (numpy clip = min (max v lo) hi). -/
def on_generation_penalty_update (pc r : ℚ) (gen : ℕ) : ℚ :=
  if gen % 3 = 0 then
    let pc1 := if 7 / 10 < r then pc * (9 / 10)
      else if r < 1 / 5 then pc * (11 / 10)
      else pc
    min (max pc1 (1 / 2)) 3
  else pc

/-- Concrete one-span, one-story grid used by the closed instances. -/
def gridEx : GridInput :=
  { xSpans := [6000], zHeights := [3000], qDead := 25, qLive := 10 }

/-- C1: whenever the structural-analysis step succeeds, the fitness is
exactly `1 / (cost * (1 + penalty_coeff * total_violation)^alpha + eps)`
with `alpha = 2.0`, `eps = 1e-9`, `cost` the decoded catalog cost and
`total_violation` the verifier total plus the topology penalty. -/
theorem fitness_matches_spec_formula (pc : ℚ) (g : GridInput) (genes : List ℤ)
    (forces : List (ℕ × ElementForces)) (hlen : 6 ≤ genes.length) :
    fitness_func pc g genes (some forces) =
      1 / (calculate_cost g genes *
        (1 + pc * ((verify_all_elements forces (decodeBeamSections g genes)
            (decodeColumnSections g genes)).1 +
          check_topology_constraints genes g)) ^ 2 + 1 / 1000000000) := by
  unfold fitness_func
  rw [if_neg (by omega)]

/-- Closed instance of the fitness-formula theorem. -/
theorem fitness_matches_spec_formula_witness :
    fitness_func 1 gridEx [0, 0, 0, 0, 0, 0] (some []) =
      1 / (calculate_cost gridEx [0, 0, 0, 0, 0, 0] *
        (1 + 1 * ((verify_all_elements [] (decodeBeamSections gridEx [0, 0, 0, 0, 0, 0])
            (decodeColumnSections gridEx [0, 0, 0, 0, 0, 0])).1 +
          check_topology_constraints [0, 0, 0, 0, 0, 0] gridEx)) ^ 2 + 1 / 1000000000) :=
  fitness_matches_spec_formula 1 gridEx [0, 0, 0, 0, 0, 0] [] (by decide)

/-- C5: a failed fitness evaluation — the analysis pipeline raising at
any step (modelled as `none`), or a genotype too short to decode —
yields the minimal fitness `1e-12`; the total Lean function also
witnesses that no exception escapes the evaluator. -/
theorem fitness_failure_minimal (pc : ℚ) (g : GridInput) (genes : List ℤ)
    (analysis : Option (List (ℕ × ElementForces))) :
    (analysis = none → fitness_func pc g genes analysis = 1 / 1000000000000) ∧
    (genes.length < 6 → fitness_func pc g genes analysis = 1 / 1000000000000) := by
  constructor
  · intro h
    subst h
    unfold fitness_func MIN_FITNESS
    split_ifs <;> rfl
  · intro h
    unfold fitness_func MIN_FITNESS
    rw [if_pos h]

/-- Closed instance of the failure-semantics theorem. -/
theorem fitness_failure_minimal_witness :
    fitness_func 1 gridEx [0, 0, 0, 0, 0, 0] none = 1 / 1000000000000 :=
  (fitness_failure_minimal 1 gridEx [0, 0, 0, 0, 0, 0] none).1 rfl

/-- C6: every 3rd generation the penalty coefficient is multiplied by
0.9 when the feasible ratio exceeds 0.7, by 1.1 when it falls below
0.2, then clamped to [0.5, 3.0]; in all other generations it is left
unchanged. -/
theorem penalty_coeff_schedule (pc r : ℚ) (gen : ℕ) :
    (gen % 3 = 0 → 7 / 10 < r →
      on_generation_penalty_update pc r gen = min (max (pc * (9 / 10)) (1 / 2)) 3) ∧
    (gen % 3 = 0 → r < 1 / 5 →
      on_generation_penalty_update pc r gen = min (max (pc * (11 / 10)) (1 / 2)) 3) ∧
    (gen % 3 = 0 → 1 / 5 ≤ r → r ≤ 7 / 10 →
      on_generation_penalty_update pc r gen = min (max pc (1 / 2)) 3) ∧
    (gen % 3 = 0 → 1 / 2 ≤ on_generation_penalty_update pc r gen ∧
      on_generation_penalty_update pc r gen ≤ 3) ∧
    (gen % 3 ≠ 0 → on_generation_penalty_update pc r gen = pc) := by
  refine ⟨?_, ?_, ?_, ?_, ?_⟩
  · intro hg hr
    unfold on_generation_penalty_update
    rw [if_pos hg, if_pos hr]
  · intro hg hr
    unfold on_generation_penalty_update
    rw [if_pos hg, if_neg (by linarith), if_pos hr]
  · intro hg hr1 hr2
    unfold on_generation_penalty_update
    rw [if_pos hg, if_neg (by linarith), if_neg (by linarith)]
  · intro hg
    unfold on_generation_penalty_update
    rw [if_pos hg]
    exact ⟨le_min (le_max_right _ _) (by norm_num), min_le_right _ _⟩
  · intro hg
    unfold on_generation_penalty_update
    rw [if_neg hg]

/-- Closed instance of the penalty-schedule theorem: generation 3 with
feasible ratio 0.9 relaxes the coefficient. -/
theorem penalty_coeff_schedule_witness :
    on_generation_penalty_update 1 (9 / 10) 3 = min (max (1 * (9 / 10)) (1 / 2)) 3 :=
  (penalty_coeff_schedule 1 (9 / 10) 3).1 (by norm_num) (by norm_num)

theorem costPerM_200_300 : (mkSection 200 300).costPerM = 5443 / 50 := by
  show calcCost ((200 : ℕ) : ℚ) ((300 : ℕ) : ℚ) = 5443 / 50
  simp only [calcCost]
  rw [round_eq]
  push_cast
  norm_num

theorem cost_gridEx_eval : calculate_cost gridEx [76, 0, 0, 0, 0, 0] = 32658 / 25 := by
  have e0 : get_by_index (([76, 0, 0, 0, 0, 0] : List ℤ).getD 0 0) = mkSection 500 800 := rfl
  have e1 : get_by_index (([76, 0, 0, 0, 0, 0] : List ℤ).getD 1 0) = mkSection 200 300 := rfl
  have e2 : get_by_index (([76, 0, 0, 0, 0, 0] : List ℤ).getD 2 0) = mkSection 200 300 := rfl
  have e3 : get_by_index (([76, 0, 0, 0, 0, 0] : List ℤ).getD 3 0) = mkSection 200 300 := rfl
  have e4 : get_by_index (([76, 0, 0, 0, 0, 0] : List ℤ).getD 4 0) = mkSection 200 300 := rfl
  have e5 : get_by_index (([76, 0, 0, 0, 0, 0] : List ℤ).getD 5 0) = mkSection 200 300 := rfl
  have l1 : beamGroupStandard gridEx = [] := rfl
  have l2 : beamGroupRoof gridEx = [1] := rfl
  have l3 : colGroupBottom gridEx = [2, 3] := rfl
  have l4 : colGroupStdCorner gridEx = [] := rfl
  have l5 : colGroupStdInterior gridEx = [] := rfl
  have l6 : colGroupTop gridEx = [] := rfl
  have hxs : gridEx.xSpans = [6000] := rfl
  have hzs : gridEx.zHeights = [3000] := rfl
  simp only [calculate_cost, e0, e1, e2, e3, e4, e5, l1, l2, l3, l4, l5, l6,
    List.length_nil, List.length_cons, costPerM_200_300, meanQ, hxs, hzs,
    List.sum_cons, List.sum_nil]
  norm_num

theorem topo_gridEx_eval :
    check_topology_constraints [76, 0, 0, 0, 0, 0] gridEx = 13 / 10 := by
  have e0 : get_by_index (([76, 0, 0, 0, 0, 0] : List ℤ).getD 0 0) = mkSection 500 800 := rfl
  have e2 : get_by_index (([76, 0, 0, 0, 0, 0] : List ℤ).getD 2 0) = mkSection 200 300 := rfl
  have e5 : get_by_index (([76, 0, 0, 0, 0, 0] : List ℤ).getD 5 0) = mkSection 200 300 := rfl
  simp only [check_topology_constraints, e0, e2, e5]
  norm_num [mkSection]

theorem fitness_gridEx_eval :
    fitness_func 1 gridEx [76, 0, 0, 0, 0, 0] (some []) =
      1000000000 / 6910432800001 := by
  unfold fitness_func
  rw [if_neg (by decide)]
  simp only [verify_all_elements, List.map_nil, List.sum_nil, topo_gridEx_eval,
    cost_gridEx_eval]
  norm_num

/-- C7 (code bug): `FrameOptimizer.run` fills the `cost` field of the
result with `1.0 / solution_fitness`, which is
`cost * (1 + penalty_coeff * violation)^2 + 1e-9` and NOT the decoded
catalog cost documented for the field: at the genotype
`[76, 0, 0, 0, 0, 0]` (strong-column rule violated, topology penalty
1.3) the returned value is 6910.432800001 while the decoded cost is
1306.32. -/
theorem run_cost_field_not_decoded_cost :
    run_best_cost 1 gridEx [76, 0, 0, 0, 0, 0] (some []) ≠
      calculate_cost gridEx [76, 0, 0, 0, 0, 0] ∧
    run_best_cost 1 gridEx [76, 0, 0, 0, 0, 0] (some []) =
      calculate_cost gridEx [76, 0, 0, 0, 0, 0] *
        (1 + 1 * check_topology_constraints [76, 0, 0, 0, 0, 0] gridEx) ^ 2 +
        1 / 1000000000 := by
  constructor
  · unfold run_best_cost
    rw [fitness_gridEx_eval, cost_gridEx_eval]
    norm_num
  · unfold run_best_cost
    rw [fitness_gridEx_eval, cost_gridEx_eval, topo_gridEx_eval]
    norm_num

theorem check_beam_capacity_nonneg (i : ℤ) (mu vu As : ℚ) :
    0 ≤ (check_beam_capacity i mu vu As).1 ∧ 0 ≤ (check_beam_capacity i mu vu As).2 := by
  unfold check_beam_capacity
  exact ⟨le_max_left _ _, le_max_left _ _⟩

theorem check_column_capacity_nonneg (i : ℤ) (pu mu : ℚ) :
    0 ≤ check_column_capacity i pu mu := by
  unfold check_column_capacity check_column_simplified
  dsimp only
  split_ifs with h1 h2 h3 h4 h5
  · norm_num
  · push_neg at h3
    linarith
  · norm_num
  · norm_num
  · exact mul_nonneg (le_max_left _ _) (by norm_num)
  · norm_num

theorem element_penalty_nonneg (bs cs : List (ℕ × ℤ)) (ef : ℕ × ElementForces) :
    0 ≤ element_penalty bs cs ef := by
  rcases ef with ⟨id, f⟩
  unfold element_penalty
  cases h : f.etype
  · simp only [h]
    exact add_nonneg (check_beam_capacity_nonneg _ _ _ _).1
      (check_beam_capacity_nonneg _ _ _ _).2
  · simp only [h]
    exact check_column_capacity_nonneg _ _ _

theorem verify_total_nonneg (forces : List (ℕ × ElementForces))
    (bs cs : List (ℕ × ℤ)) : 0 ≤ (verify_all_elements forces bs cs).1 := by
  unfold verify_all_elements
  apply List.sum_nonneg
  intro x hx
  obtain ⟨ef, _, rfl⟩ := List.mem_map.mp hx
  exact element_penalty_nonneg bs cs ef

theorem sections_A_pos : ∀ k < 77, 0 < (sections.getD k (mkSection 0 0)).A := by decide

theorem get_by_index_A_pos (i : ℤ) : 0 < (get_by_index i).A := by
  rw [get_by_index_eq_mod i]
  apply sections_A_pos
  have h1 : 0 ≤ i % 77 := Int.emod_nonneg i (by norm_num)
  have h2 : i % 77 < 77 := Int.emod_lt_of_pos i (by norm_num)
  omega

theorem topo_nonneg (genes : List ℤ) (g : GridInput) :
    0 ≤ check_topology_constraints genes g := by
  unfold check_topology_constraints
  split_ifs with h1
  · norm_num
  · dsimp only
    have hbot : (0 : ℚ) < ((get_by_index (genes.getD 2 0)).A : ℚ) := by
      exact_mod_cast get_by_index_A_pos (genes.getD 2 0)
    refine add_nonneg ?_ ?_
    · split_ifs with h2
      · nlinarith
      · norm_num
    · split_ifs with h3
      · have hdiv : (1 : ℚ) ≤ ((get_by_index (genes.getD 5 0)).A : ℚ) /
            ((get_by_index (genes.getD 2 0)).A : ℚ) := (one_le_div hbot).mpr (le_of_lt h3)
        nlinarith
      · norm_num

/-- C9: every member penalty is clamped at zero from below, so the
verifier total and the topology penalty are nonnegative for all
inputs, and the fitness of a successfully analysed genotype never
exceeds `1 / (cost + eps)`. -/
theorem penalties_nonneg_fitness_bounded (forces : List (ℕ × ElementForces))
    (bs cs : List (ℕ × ℤ)) (genes : List ℤ) (g : GridInput) (pc : ℚ)
    (hpc : 0 ≤ pc) (hcost : 0 ≤ calculate_cost g genes) (hlen : 6 ≤ genes.length) :
    0 ≤ (verify_all_elements forces bs cs).1 ∧
    0 ≤ check_topology_constraints genes g ∧
    fitness_func pc g genes (some forces) ≤
      1 / (calculate_cost g genes + 1 / 1000000000) := by
  refine ⟨verify_total_nonneg _ _ _, topo_nonneg _ _, ?_⟩
  unfold fitness_func
  rw [if_neg (by omega)]
  dsimp only
  set tv := (verify_all_elements forces (decodeBeamSections g genes)
      (decodeColumnSections g genes)).1 + check_topology_constraints genes g with htv
  set C := calculate_cost g genes with hC
  have htv0 : 0 ≤ tv :=
    add_nonneg (verify_total_nonneg _ _ _) (topo_nonneg _ _)
  have h1 : (1 : ℚ) ≤ 1 + pc * tv := by nlinarith
  have hx : (1 : ℚ) ≤ (1 + pc * tv) ^ 2 := by nlinarith
  have hsq : C ≤ C * (1 + pc * tv) ^ 2 := by
    calc C = C * 1 := (mul_one C).symm
    _ ≤ C * (1 + pc * tv) ^ 2 := mul_le_mul_of_nonneg_left hx hcost
  apply one_div_le_one_div_of_le
  · linarith
  · exact add_le_add_right hsq _

/-- Closed instance of the nonnegativity and fitness-bound theorem. -/
theorem penalties_nonneg_fitness_bounded_witness :
    0 ≤ (verify_all_elements [] [] []).1 ∧
    0 ≤ check_topology_constraints [76, 0, 0, 0, 0, 0] gridEx ∧
    fitness_func 1 gridEx [76, 0, 0, 0, 0, 0] (some []) ≤
      1 / (calculate_cost gridEx [76, 0, 0, 0, 0, 0] + 1 / 1000000000) :=
  penalties_nonneg_fitness_bounded [] [] [] [76, 0, 0, 0, 0, 0] gridEx 1
    (by norm_num) (by rw [cost_gridEx_eval]; norm_num) (by decide)

/-- C10: a member id present in the forces map but missing from the
assignment maps is scored silently with the fixed default catalog index
(30 for beams, 40 for columns): the evaluation is total, the member's
recorded penalty is that of the default section, and the total is the
usual additive sum. -/
theorem verify_missing_id_defaults (id : ℕ) (f : ElementForces)
    (bs cs : List (ℕ × ℤ)) (forces : List (ℕ × ElementForces))
    (hb : bs.lookup id = none) (hc : cs.lookup id = none) :
    (f.etype = ElementType.beam → element_penalty bs cs (id, f) =
      (check_beam_capacity 30 (M_design f) (V_design f) DEFAULT_BEAM_AS).1 +
      (check_beam_capacity 30 (M_design f) (V_design f) DEFAULT_BEAM_AS).2) ∧
    (f.etype = ElementType.column → element_penalty bs cs (id, f) =
      check_column_capacity 40 |f.axialMin| (M_design f)) ∧
    (verify_all_elements ((id, f) :: forces) bs cs).1 =
      element_penalty bs cs (id, f) + (verify_all_elements forces bs cs).1 ∧
    (verify_all_elements ((id, f) :: forces) bs cs).2.lookup id =
      some (element_penalty bs cs (id, f)) := by
  refine ⟨?_, ?_, ?_, ?_⟩
  · intro he
    simp [element_penalty, he, hb]
  · intro he
    simp [element_penalty, he, hc]
  · simp [verify_all_elements]
  · simp [verify_all_elements, List.lookup]

/-- Sample beam forces used by the closed instance of C10. -/
def efEx : ElementForces :=
  { etype := ElementType.beam, length := 6000, axialMax := 0, axialMin := 0,
    shearMax := 50, shearMin := -50, momentMax := 80, momentMin := -40 }

/-- Closed instance of the missing-id default theorem: empty assignment
maps, one beam member. -/
theorem verify_missing_id_defaults_witness :
    (efEx.etype = ElementType.beam → element_penalty [] [] (9, efEx) =
      (check_beam_capacity 30 (M_design efEx) (V_design efEx) DEFAULT_BEAM_AS).1 +
      (check_beam_capacity 30 (M_design efEx) (V_design efEx) DEFAULT_BEAM_AS).2) ∧
    (efEx.etype = ElementType.column → element_penalty [] [] (9, efEx) =
      check_column_capacity 40 |efEx.axialMin| (M_design efEx)) ∧
    (verify_all_elements [(9, efEx)] [] []).1 =
      element_penalty [] [] (9, efEx) + (verify_all_elements [] [] []).1 ∧
    (verify_all_elements [(9, efEx)] [] []).2.lookup 9 =
      some (element_penalty [] [] (9, efEx)) :=
  verify_missing_id_defaults 9 efEx [] [] [] rfl rfl

/-! ### Monotonicity of the flexural capacity.  The neutral-axis depth
of `calculate_beam_Mn` is exposed as explicit helper functions so that
the clamping can be reasoned about. -/

/-- Raw neutral-axis depth from force equilibrium. -/
def mnX0 (b As A_p : ℚ) : ℚ :=
  (F_Y * As - F_Y_PRIME * A_p) / (ALPHA_1 * F_C * b)

/-- Neutral-axis depth after the balanced-depth clamp and the
compression-steel raise of `calculate_beam_Mn`. -/
def mnX (b h As A_p : ℚ) : ℚ :=
  if (if xi_b * get_h0 h < mnX0 b As A_p then xi_b * get_h0 h else mnX0 b As A_p)
      < 2 * a_s_const ∧ 0 < A_p
  then 2 * a_s_const
  else if xi_b * get_h0 h < mnX0 b As A_p then xi_b * get_h0 h else mnX0 b As A_p

/-- Concrete-block moment contribution at depth `x`. -/
def mnF (b h x : ℚ) : ℚ := ALPHA_1 * F_C * b * x * (get_h0 h - x / 2)

theorem calculate_beam_Mn_eq (b h As A_p : ℚ) :
    calculate_beam_Mn b h As A_p =
      (mnF b h (mnX b h As A_p) + F_Y_PRIME * A_p * (get_h0 h - a_s_const)) / 1000000 := rfl

theorem mnX1_le_X (b h As A_p : ℚ) :
    (if xi_b * get_h0 h < mnX0 b As A_p then xi_b * get_h0 h else mnX0 b As A_p) ≤
      xi_b * get_h0 h := by
  split_ifs with hc
  · exact le_refl _
  · exact le_of_not_lt hc

theorem mnX1_le_x0 (b h As A_p : ℚ) :
    (if xi_b * get_h0 h < mnX0 b As A_p then xi_b * get_h0 h else mnX0 b As A_p) ≤
      mnX0 b As A_p := by
  split_ifs with hc
  · exact le_of_lt hc
  · exact le_refl _

theorem X_le_h0 {h : ℚ} (hh0 : 0 ≤ get_h0 h) : xi_b * get_h0 h ≤ get_h0 h := by
  rw [xi_b_val]
  nlinarith

theorem mnX_le_h0 (b h As A_p : ℚ) (hh0 : 106 ≤ get_h0 h) :
    mnX b h As A_p ≤ get_h0 h := by
  have hX : xi_b * get_h0 h ≤ get_h0 h := X_le_h0 (by linarith)
  have h106 : (2 * a_s_const : ℚ) = 106 := by norm_num [a_s_const, C_COVER, D_STIRRUP]
  unfold mnX
  split_ifs with h1 h2 h3
  · rw [h106]; linarith
  · exact hX
  · rw [h106]; linarith
  · exact le_trans (le_of_not_lt h1) hX

theorem mnX_nonneg (b h As A_p : ℚ) (hb : 0 ≤ b) (hh0 : 0 ≤ get_h0 h)
    (hAs : 0 ≤ As) (hA_p : 0 ≤ A_p) : 0 ≤ mnX b h As A_p := by
  have hX : 0 ≤ xi_b * get_h0 h := by
    rw [xi_b_val]; positivity
  have hx0z : A_p = 0 → 0 ≤ mnX0 b As A_p := by
    intro hz
    unfold mnX0
    rw [hz]
    apply div_nonneg
    · norm_num [F_Y]; linarith
    · norm_num [ALPHA_1, F_C]; linarith
  unfold mnX
  split_ifs with h1 h2 h3
  · norm_num [a_s_const, C_COVER, D_STIRRUP]
  · exact hX
  · norm_num [a_s_const, C_COVER, D_STIRRUP]
  · rcases lt_or_eq_of_le hA_p with hpos | hzero
    · push_neg at h3
      have hnl : ¬mnX0 b As A_p < 2 * a_s_const := fun hlt =>
        absurd hpos (not_lt.mpr (h3 hlt))
      have := le_of_not_lt hnl
      norm_num [a_s_const, C_COVER, D_STIRRUP] at this
      linarith
    · exact hx0z hzero.symm

theorem mnF_mono_x {b h x1 x2 : ℚ} (hb : 0 ≤ b) (h12 : x1 ≤ x2)
    (hx2 : x2 ≤ get_h0 h) : mnF b h x1 ≤ mnF b h x2 := by
  unfold mnF
  have key : 0 ≤ b * ((x2 - x1) * (2 * get_h0 h - x1 - x2)) :=
    mul_nonneg hb (mul_nonneg (by linarith) (by linarith))
  norm_num [ALPHA_1, F_C]
  nlinarith [key]

theorem mnF_mono_b {b1 b2 h x : ℚ} (hb : b1 ≤ b2) (hx0 : 0 ≤ x)
    (hxh : x ≤ get_h0 h) : mnF b1 h x ≤ mnF b2 h x := by
  unfold mnF
  have key : 0 ≤ (b2 - b1) * (x * (get_h0 h - x / 2)) :=
    mul_nonneg (by linarith) (mul_nonneg hx0 (by linarith))
  norm_num [ALPHA_1, F_C]
  nlinarith [key]

/-- The clamped neutral-axis depth in min/max form: the balanced-depth
clamp is a `min`, the compression-steel raise a `max` (applied only
when compression steel is present). -/
theorem mnX_eq_minmax (b h As A_p : ℚ) :
    mnX b h As A_p =
      if 0 < A_p then
        max (min (xi_b * get_h0 h) (mnX0 b As A_p)) (2 * a_s_const)
      else min (xi_b * get_h0 h) (mnX0 b As A_p) := by
  unfold mnX
  rcases lt_or_le 0 A_p with hA | hA
  · rw [if_pos hA]
    split_ifs with h1 h2 h3
    · rw [min_eq_left (le_of_lt h1), max_eq_right (le_of_lt h2.1)]
    · rw [min_eq_left (le_of_lt h1)]
      rcases not_and_or.mp h2 with hx | hx
      · exact (max_eq_left (le_of_not_lt hx)).symm
      · exact absurd hA hx
    · rw [min_eq_right (le_of_not_lt h1), max_eq_right (le_of_lt h3.1)]
    · rw [min_eq_right (le_of_not_lt h1)]
      rcases not_and_or.mp h3 with hx | hx
      · exact (max_eq_left (le_of_not_lt hx)).symm
      · exact absurd hA hx
  · rw [if_neg (not_lt.mpr hA)]
    split_ifs with h1 h2 h3
    · exact absurd h2.2 (not_lt.mpr hA)
    · exact (min_eq_left (le_of_lt h1)).symm
    · exact absurd h3.2 (not_lt.mpr hA)
    · exact (min_eq_right (le_of_not_lt h1)).symm

theorem mnX0_mono_As {b As1 As2 A_p : ℚ} (hb : 0 < b) (h12 : As1 ≤ As2) :
    mnX0 b As1 A_p ≤ mnX0 b As2 A_p := by
  unfold mnX0
  have h1 : (0 : ℚ) < ALPHA_1 * F_C := by norm_num [ALPHA_1, F_C]
  have hc : (0 : ℚ) < ALPHA_1 * F_C * b := by positivity
  have hnum : F_Y * As1 - F_Y_PRIME * A_p ≤ F_Y * As2 - F_Y_PRIME * A_p := by
    have hFY : F_Y * As1 ≤ F_Y * As2 :=
      mul_le_mul_of_nonneg_left h12 (by norm_num [F_Y])
    linarith
  exact (div_le_div_right hc).mpr hnum

theorem mnX_mono_As {b h As1 As2 A_p : ℚ} (hb : 0 < b) (h12 : As1 ≤ As2) :
    mnX b h As1 A_p ≤ mnX b h As2 A_p := by
  have hx0 : mnX0 b As1 A_p ≤ mnX0 b As2 A_p := mnX0_mono_As hb h12
  rw [mnX_eq_minmax, mnX_eq_minmax]
  split_ifs
  · exact max_le_max (min_le_min (le_refl _) hx0) (le_refl _)
  · exact min_le_min (le_refl _) hx0

theorem X_mono_h {h1 h2 : ℚ} (hh : h1 ≤ h2) :
    xi_b * get_h0 h1 ≤ xi_b * get_h0 h2 := by
  rw [xi_b_val]
  unfold get_h0
  nlinarith

theorem mnX_mono_h {b h1 h2 As A_p : ℚ} (hh : h1 ≤ h2) :
    mnX b h1 As A_p ≤ mnX b h2 As A_p := by
  have hX : xi_b * get_h0 h1 ≤ xi_b * get_h0 h2 := X_mono_h hh
  rw [mnX_eq_minmax, mnX_eq_minmax]
  split_ifs
  · exact max_le_max (min_le_min hX (le_refl _)) (le_refl _)
  · exact min_le_min hX (le_refl _)

theorem mnF_mono_h {b h1 h2 x : ℚ} (hb : 0 ≤ b) (hx : 0 ≤ x) (hh : h1 ≤ h2) :
    mnF b h1 x ≤ mnF b h2 x := by
  unfold mnF get_h0
  have key : 0 ≤ b * x * (h2 - h1) :=
    mul_nonneg (mul_nonneg hb hx) (by linarith)
  norm_num [ALPHA_1, F_C]
  nlinarith [key]

/-- Chain for the hard direction of width monotonicity when the wider
section is governed by its own equilibrium depth. -/
theorem mnF_chainI {b1 b2 h z1 z2 T : ℚ} (hb1 : 0 ≤ b1) (hb2 : 0 ≤ b2)
    (hK1 : ALPHA_1 * F_C * b1 * z1 ≤ T)
    (hTz2 : ALPHA_1 * F_C * b2 * z2 = T) (hz21 : z2 ≤ z1)
    (hz1h : z1 ≤ get_h0 h) (hz2n : 0 ≤ z2) (hh0 : 0 ≤ get_h0 h) :
    mnF b1 h z1 ≤ mnF b2 h z2 := by
  have habq : (0 : ℚ) ≤ ALPHA_1 * F_C := by norm_num [ALPHA_1, F_C]
  have hT0 : 0 ≤ T := by
    rw [← hTz2]
    exact mul_nonneg (mul_nonneg habq hb2) hz2n
  have harm1 : 0 ≤ get_h0 h - z1 / 2 := by linarith
  calc mnF b1 h z1 = ALPHA_1 * F_C * b1 * z1 * (get_h0 h - z1 / 2) := rfl
    _ ≤ T * (get_h0 h - z1 / 2) := mul_le_mul_of_nonneg_right hK1 harm1
    _ ≤ T * (get_h0 h - z2 / 2) := mul_le_mul_of_nonneg_left (by linarith) hT0
    _ = ALPHA_1 * F_C * b2 * z2 * (get_h0 h - z2 / 2) := by rw [hTz2]
    _ = mnF b2 h z2 := rfl

/-- Chain for the hard direction of width monotonicity when the wider
section is pinned at the compression-steel raise `2 a_s'`. -/
theorem mnF_chainII {b1 b2 h z1 T : ℚ} (hb2 : 0 ≤ b2)
    (hK1 : ALPHA_1 * F_C * b1 * z1 ≤ T)
    (hTlt : T ≤ ALPHA_1 * F_C * b2 * (2 * a_s_const)) (hT0 : 0 ≤ T)
    (h106z1 : 2 * a_s_const ≤ z1) (hz1h : z1 ≤ get_h0 h) (hh0 : 106 ≤ get_h0 h) :
    mnF b1 h z1 ≤ mnF b2 h (2 * a_s_const) := by
  have harm1 : 0 ≤ get_h0 h - z1 / 2 := by linarith
  have harm2 : 0 ≤ get_h0 h - 2 * a_s_const / 2 := by
    norm_num [a_s_const, C_COVER, D_STIRRUP]
    linarith
  calc mnF b1 h z1 = ALPHA_1 * F_C * b1 * z1 * (get_h0 h - z1 / 2) := rfl
    _ ≤ T * (get_h0 h - z1 / 2) := mul_le_mul_of_nonneg_right hK1 harm1
    _ ≤ T * (get_h0 h - 2 * a_s_const / 2) := mul_le_mul_of_nonneg_left (by linarith) hT0
    _ ≤ ALPHA_1 * F_C * b2 * (2 * a_s_const) * (get_h0 h - 2 * a_s_const / 2) :=
        mul_le_mul_of_nonneg_right hTlt harm2
    _ = mnF b2 h (2 * a_s_const) := rfl

/-- Core of width monotonicity: the concrete-block term evaluated at
the clamped depth is non-decreasing in the width. -/
theorem mnF_mnX_mono_b {b1 b2 h As A_p : ℚ} (hb1 : 0 < b1) (hb12 : b1 ≤ b2)
    (hh0 : 106 ≤ get_h0 h) (hAs : 0 ≤ As) (hA_p : 0 ≤ A_p) :
    mnF b1 h (mnX b1 h As A_p) ≤ mnF b2 h (mnX b2 h As A_p) := by
  have hb2 : (0 : ℚ) < b2 := lt_of_lt_of_le hb1 hb12
  have habq : (0 : ℚ) < ALPHA_1 * F_C := by norm_num [ALPHA_1, F_C]
  have hz1h := mnX_le_h0 b1 h As A_p hh0
  have hz2h := mnX_le_h0 b2 h As A_p hh0
  have hz1n := mnX_nonneg b1 h As A_p (le_of_lt hb1) (by linarith) hAs hA_p
  have hz2n := mnX_nonneg b2 h As A_p (le_of_lt hb2) (by linarith) hAs hA_p
  have hT1 : ALPHA_1 * F_C * b1 * mnX0 b1 As A_p = F_Y * As - F_Y_PRIME * A_p := by
    unfold mnX0
    rw [mul_comm]
    exact div_mul_cancel₀ _ (by positivity)
  have hT2 : ALPHA_1 * F_C * b2 * mnX0 b2 As A_p = F_Y * As - F_Y_PRIME * A_p := by
    unfold mnX0
    rw [mul_comm]
    exact div_mul_cancel₀ _ (by positivity)
  rcases le_or_lt (mnX b1 h As A_p) (mnX b2 h As A_p) with h12 | h21
  · exact le_trans (mnF_mono_b hb12 hz1n hz1h) (mnF_mono_x (le_of_lt hb2) h12 hz2h)
  · rcases lt_or_eq_of_le hA_p with hApos | hAzero
    · -- compression steel present: depths are max (min X x0) 106
      have hf1 : mnX b1 h As A_p =
          max (min (xi_b * get_h0 h) (mnX0 b1 As A_p)) (2 * a_s_const) := by
        rw [mnX_eq_minmax, if_pos hApos]
      have hf2 : mnX b2 h As A_p =
          max (min (xi_b * get_h0 h) (mnX0 b2 As A_p)) (2 * a_s_const) := by
        rw [mnX_eq_minmax, if_pos hApos]
      have hz1eq : mnX b1 h As A_p = min (xi_b * get_h0 h) (mnX0 b1 As A_p) := by
        rcases max_cases (min (xi_b * get_h0 h) (mnX0 b1 As A_p)) (2 * a_s_const) with
          ⟨he, _⟩ | ⟨he, _⟩
        · rw [hf1, he]
        · exfalso
          have hge2 : 2 * a_s_const ≤ mnX b2 h As A_p := by
            rw [hf2]
            exact le_max_right _ _
          rw [hf1, he] at h21
          linarith
      have hz1x0 : mnX b1 h As A_p ≤ mnX0 b1 As A_p := by
        rw [hz1eq]
        exact min_le_right _ _
      have hz1X : mnX b1 h As A_p ≤ xi_b * get_h0 h := by
        rw [hz1eq]
        exact min_le_left _ _
      have hK1 : ALPHA_1 * F_C * b1 * mnX b1 h As A_p ≤ F_Y * As - F_Y_PRIME * A_p := by
        calc ALPHA_1 * F_C * b1 * mnX b1 h As A_p
            ≤ ALPHA_1 * F_C * b1 * mnX0 b1 As A_p :=
              mul_le_mul_of_nonneg_left hz1x0 (by positivity)
          _ = F_Y * As - F_Y_PRIME * A_p := hT1
      rcases max_cases (min (xi_b * get_h0 h) (mnX0 b2 As A_p)) (2 * a_s_const) with
        ⟨he2, _⟩ | ⟨he2, hlt2⟩
      · -- z2 follows its own equilibrium depth
        have hz2x02 : mnX b2 h As A_p = mnX0 b2 As A_p := by
          rcases min_cases (xi_b * get_h0 h) (mnX0 b2 As A_p) with ⟨hm, _⟩ | ⟨hm, _⟩
          · exfalso
            rw [hf2, he2, hm] at h21
            linarith
          · rw [hf2, he2, hm]
        have hTz2 : ALPHA_1 * F_C * b2 * mnX b2 h As A_p = F_Y * As - F_Y_PRIME * A_p := by
          rw [hz2x02]
          exact hT2
        exact mnF_chainI (le_of_lt hb1) (le_of_lt hb2) hK1 hTz2 (le_of_lt h21) hz1h hz2n
          (by linarith)
      · -- z2 pinned at the raise
        have hz2eq : mnX b2 h As A_p = 2 * a_s_const := by rw [hf2, he2]
        have h106z1 : 2 * a_s_const ≤ mnX b1 h As A_p := by
          rw [← hz2eq]
          exact le_of_lt h21
        have hx02lt : mnX0 b2 As A_p < 2 * a_s_const := by
          rcases min_cases (xi_b * get_h0 h) (mnX0 b2 As A_p) with ⟨hm, hle⟩ | ⟨hm, _⟩
          · rw [hm] at hlt2
            linarith
          · rw [hm] at hlt2
            exact hlt2
        have hTlt : F_Y * As - F_Y_PRIME * A_p ≤ ALPHA_1 * F_C * b2 * (2 * a_s_const) := by
          rw [← hT2]
          exact mul_le_mul_of_nonneg_left (le_of_lt hx02lt) (by positivity)
        have hT0 : 0 ≤ F_Y * As - F_Y_PRIME * A_p := by
          refine le_trans ?_ hK1
          exact mul_nonneg (by positivity) hz1n
        rw [hz2eq]
        exact mnF_chainII (le_of_lt hb2) hK1 hTlt hT0 h106z1 hz1h hh0
    · -- no compression steel: depths are min X x0
      have hApz : ¬(0 : ℚ) < A_p := by rw [← hAzero]; exact lt_irrefl 0
      have hf1 : mnX b1 h As A_p = min (xi_b * get_h0 h) (mnX0 b1 As A_p) := by
        rw [mnX_eq_minmax, if_neg hApz]
      have hf2 : mnX b2 h As A_p = min (xi_b * get_h0 h) (mnX0 b2 As A_p) := by
        rw [mnX_eq_minmax, if_neg hApz]
      have hz1x0 : mnX b1 h As A_p ≤ mnX0 b1 As A_p := by
        rw [hf1]
        exact min_le_right _ _
      have hz1X : mnX b1 h As A_p ≤ xi_b * get_h0 h := by
        rw [hf1]
        exact min_le_left _ _
      have hK1 : ALPHA_1 * F_C * b1 * mnX b1 h As A_p ≤ F_Y * As - F_Y_PRIME * A_p := by
        calc ALPHA_1 * F_C * b1 * mnX b1 h As A_p
            ≤ ALPHA_1 * F_C * b1 * mnX0 b1 As A_p :=
              mul_le_mul_of_nonneg_left hz1x0 (by positivity)
          _ = F_Y * As - F_Y_PRIME * A_p := hT1
      have hz2x02 : mnX b2 h As A_p = mnX0 b2 As A_p := by
        rcases min_cases (xi_b * get_h0 h) (mnX0 b2 As A_p) with ⟨hm, _⟩ | ⟨hm, _⟩
        · exfalso
          rw [hf2, hm] at h21
          linarith
        · rw [hf2, hm]
      have hTz2 : ALPHA_1 * F_C * b2 * mnX b2 h As A_p = F_Y * As - F_Y_PRIME * A_p := by
        rw [hz2x02]
        exact hT2
      exact mnF_chainI (le_of_lt hb1) (le_of_lt hb2) hK1 hTz2 (le_of_lt h21) hz1h hz2n
        (by linarith)

/-- C8: the flexural capacity is non-decreasing in the tension steel
area for fixed geometry (and constant once the balanced-depth clamp
`x = xi_b h0` governs both areas), and non-decreasing in the width and
in the depth for fixed steel areas (on the physically meaningful
domain: positive width, depth large enough that the effective depth
exceeds the compression-steel raise `2 a_s' = 106` mm — every catalog
section satisfies this — and nonnegative steel areas). -/
theorem calculate_beam_Mn_monotone :
    (∀ b h As1 As2 A_p : ℚ, 0 < b → 159 ≤ h → 0 ≤ A_p → As1 ≤ As2 →
      calculate_beam_Mn b h As1 A_p ≤ calculate_beam_Mn b h As2 A_p) ∧
    (∀ b h As1 As2 A_p : ℚ, 0 < b →
      xi_b * get_h0 h ≤ mnX0 b As1 A_p → xi_b * get_h0 h ≤ mnX0 b As2 A_p →
      calculate_beam_Mn b h As1 A_p = calculate_beam_Mn b h As2 A_p) ∧
    (∀ b1 b2 h As A_p : ℚ, 0 < b1 → b1 ≤ b2 → 159 ≤ h → 0 ≤ As → 0 ≤ A_p →
      calculate_beam_Mn b1 h As A_p ≤ calculate_beam_Mn b2 h As A_p) ∧
    (∀ b h1 h2 As A_p : ℚ, 0 ≤ b → 159 ≤ h1 → h1 ≤ h2 → 0 ≤ As → 0 ≤ A_p →
      calculate_beam_Mn b h1 As A_p ≤ calculate_beam_Mn b h2 As A_p) := by
  have hmil : (0 : ℚ) < 1000000 := by norm_num
  refine ⟨?_, ?_, ?_, ?_⟩
  · intro b h As1 As2 A_p hb hh hA_p h12
    have hh0 : 106 ≤ get_h0 h := by
      norm_num [get_h0, a_s_const, C_COVER, D_STIRRUP]
      linarith
    rw [calculate_beam_Mn_eq, calculate_beam_Mn_eq]
    apply (div_le_div_right hmil).mpr
    apply add_le_add_right
    exact mnF_mono_x (le_of_lt hb) (mnX_mono_As hb h12) (mnX_le_h0 b h As2 A_p hh0)
  · intro b h As1 As2 A_p hb hcl1 hcl2
    have key : mnX b h As1 A_p = mnX b h As2 A_p := by
      rw [mnX_eq_minmax, mnX_eq_minmax, min_eq_left hcl1, min_eq_left hcl2]
    rw [calculate_beam_Mn_eq, calculate_beam_Mn_eq, key]
  · intro b1 b2 h As A_p hb1 hb12 hh hAs hA_p
    have hh0 : 106 ≤ get_h0 h := by
      norm_num [get_h0, a_s_const, C_COVER, D_STIRRUP]
      linarith
    rw [calculate_beam_Mn_eq, calculate_beam_Mn_eq]
    apply (div_le_div_right hmil).mpr
    apply add_le_add_right
    exact mnF_mnX_mono_b hb1 hb12 hh0 hAs hA_p
  · intro b h1 h2 As A_p hb hh1 hh12 hAs hA_p
    have hh01 : 106 ≤ get_h0 h1 := by
      norm_num [get_h0, a_s_const, C_COVER, D_STIRRUP]
      linarith
    have hh02 : 106 ≤ get_h0 h2 := by
      norm_num [get_h0, a_s_const, C_COVER, D_STIRRUP]
      linarith
    rw [calculate_beam_Mn_eq, calculate_beam_Mn_eq]
    apply (div_le_div_right hmil).mpr
    apply add_le_add
    · have hz1n := mnX_nonneg b h1 As A_p hb (by linarith) hAs hA_p
      calc mnF b h1 (mnX b h1 As A_p) ≤ mnF b h2 (mnX b h1 As A_p) :=
            mnF_mono_h hb hz1n hh12
        _ ≤ mnF b h2 (mnX b h2 As A_p) :=
            mnF_mono_x hb (mnX_mono_h hh12) (mnX_le_h0 b h2 As A_p hh02)
    · refine mul_le_mul_of_nonneg_left ?_ (mul_nonneg (by norm_num [F_Y_PRIME]) hA_p)
      unfold get_h0
      linarith

/-- Closed instance of the capacity-monotonicity theorem at catalog
sections: more tension steel, a wider section and a deeper section
never decrease the capacity, and two heavily over-reinforced areas give
the same clamped capacity. -/
theorem calculate_beam_Mn_monotone_witness :
    calculate_beam_Mn 250 500 900 0 ≤ calculate_beam_Mn 250 500 1000 0 ∧
    calculate_beam_Mn 250 500 3000 0 = calculate_beam_Mn 250 500 4000 0 ∧
    calculate_beam_Mn 200 500 900 100 ≤ calculate_beam_Mn 250 500 900 100 ∧
    calculate_beam_Mn 250 400 900 100 ≤ calculate_beam_Mn 250 500 900 100 :=
  ⟨calculate_beam_Mn_monotone.1 250 500 900 1000 0 (by norm_num) (by norm_num)
      (by norm_num) (by norm_num),
    calculate_beam_Mn_monotone.2.1 250 500 3000 4000 0 (by norm_num)
      (by norm_num [xi_b, BETA_1, F_Y, F_Y_PRIME, E_S, get_h0, a_s_const, C_COVER,
        D_STIRRUP, mnX0, ALPHA_1, F_C])
      (by norm_num [xi_b, BETA_1, F_Y, F_Y_PRIME, E_S, get_h0, a_s_const, C_COVER,
        D_STIRRUP, mnX0, ALPHA_1, F_C]),
    calculate_beam_Mn_monotone.2.2.1 200 250 500 900 100 (by norm_num) (by norm_num)
      (by norm_num) (by norm_num) (by norm_num),
    calculate_beam_Mn_monotone.2.2.2 250 400 500 900 100 (by norm_num) (by norm_num)
      (by norm_num) (by norm_num) (by norm_num)⟩

end RCFrame
